import Mathlib

/-!
Verification development for the synchronization core of a multi-process
garbage collector: the CAS retry primitive (`cas_loop.h`), the versioned
lock-free stack (`lock_free_stack.h`), and the handshake protocol
(`gc_handshake.h`).

The shallow embedding makes each atomic word explicit. An adversary
function `adv : Nat -> T -> T` models interference by other threads: before
every atomic access of ours, the adversary may rewrite the word (the
identity adversary `quiet` models a quiescent, single-threaded run). A
`Machine` record carries the word together with instrumentation counters
(number of update-function invocations and number of compare-and-swap
attempts) so that claims such as "the update function is never invoked"
are directly statable.
-/

namespace ruts

/-- Result of a CAS attempt, mirroring `cas_loop_return_value` from
`cas_loop.h`: a success flag, the observed prior value, and the proposed
new value. -/
structure cas_loop_return_value (T : Type) where
  succeeded : Bool
  prior_value : T
  new_value : T
deriving DecidableEq, Repr

/-- `resulting_value()` from `cas_loop.h`: `new_value` iff `succeeded`,
else `prior_value`. -/
def cas_loop_return_value.resulting_value {T : Type} (r : cas_loop_return_value T) : T :=
  if r.succeeded then r.new_value else r.prior_value

/-- The state of one atomic word plus instrumentation: `step` counts
atomic accesses (each giving the adversary a chance to interfere),
`updates` counts invocations of the update function, `casAttempts` counts
hardware compare-and-swap attempts. -/
structure Machine (T : Type) where
  word : T
  step : Nat
  updates : Nat
  casAttempts : Nat
deriving DecidableEq, Repr

/-- Give the adversary one chance to rewrite the word, just before one of
our atomic accesses. -/
def Machine.tick {T : Type} (adv : Nat → T → T) (m : Machine T) : Machine T :=
  { m with word := adv m.step m.word, step := m.step + 1 }

/-- The quiescent (single-threaded) adversary: never changes the word. -/
def quiet {T : Type} : Nat → T → T := fun _ x => x

/-- `cas_loop_return_value::try_once` from `cas_loop.h`: evaluate the
continue predicate on `prior_value`; if it vetoes, finish with
`succeeded = false` touching nothing; otherwise compute the update
(recorded in `new_value`) and attempt one compare-and-swap, which on
failure stores the actually observed word into `prior_value` (the
semantics of `compare_exchange_strong`). Returns `(done, result, contState,
machine)` where `done` mirrors the C++ return value (true when the loop
should stop). The continue predicate is allowed a state `σ` threaded
through calls, matching the stateful lambda the bounded retry form uses. -/
def try_once {T σ : Type} [DecidableEq T] (adv : Nat → T → T) (cont : σ → T → Bool × σ)
    (upd : T → T) (r : cas_loop_return_value T) (cs : σ) (m : Machine T) :
    Bool × cas_loop_return_value T × σ × Machine T :=
  let c := cont cs r.prior_value
  if c.1 then
    let nv := upd r.prior_value
    let m1 := Machine.tick adv m
    let m2 := { m1 with updates := m1.updates + 1, casAttempts := m1.casAttempts + 1 }
    if m1.word = r.prior_value then
      (true, { r with succeeded := true, new_value := nv }, c.2, { m2 with word := nv })
    else
      (false, { succeeded := false, prior_value := m1.word, new_value := nv }, c.2, m2)
  else
    (true, { r with succeeded := false }, c.2, m)

/-- `cas_loop_return_value::first_try`: atomically read the word into
`prior_value`, then `try_once`. -/
def first_try {T σ : Type} [DecidableEq T] (adv : Nat → T → T) (cont : σ → T → Bool × σ)
    (upd : T → T) (r : cas_loop_return_value T) (cs : σ) (m : Machine T) :
    Bool × cas_loop_return_value T × σ × Machine T :=
  let m1 := Machine.tick adv m
  try_once adv cont upd { r with prior_value := m1.word } cs m1

/-- `cas_loop_return_value::try_more`: retry `try_once` until it reports
done. The retries reuse the `prior_value` left by the failed
compare-and-swap, exactly as the source does (no fresh read). Fuel bounds
the number of retries so the function is total; `none` means the fuel ran
out before the loop exited. -/
def try_more {T σ : Type} [DecidableEq T] (adv : Nat → T → T) (cont : σ → T → Bool × σ)
    (upd : T → T) : Nat → cas_loop_return_value T × σ × Machine T →
    Option (cas_loop_return_value T × σ × Machine T)
  | 0, _ => none
  | Nat.succ fuel, x =>
    let s := try_once adv cont upd x.1 x.2.1 x.2.2
    if s.1 then some s.2 else try_more adv cont upd fuel s.2

/-- `cas_loop_return_value::loop`: `first_try`, then `try_more` until done.
The result record starts default-initialized as in the source. -/
def loop {T σ : Type} [DecidableEq T] [Inhabited T] (adv : Nat → T → T)
    (cont : σ → T → Bool × σ) (upd : T → T) (fuel : Nat) (cs : σ) (w : T) :
    Option (cas_loop_return_value T × σ × Machine T) :=
  let s := first_try adv cont upd ⟨false, default, default⟩ cs ⟨w, 0, 0, 0⟩
  if s.1 then some s.2 else try_more adv cont upd fuel s.2

/-- `cas_loop_return_value::once`: a single `first_try`, no retry. -/
def once {T σ : Type} [DecidableEq T] [Inhabited T] (adv : Nat → T → T)
    (cont : σ → T → Bool × σ) (upd : T → T) (cs : σ) (w : T) :
    cas_loop_return_value T × σ × Machine T :=
  (first_try adv cont upd ⟨false, default, default⟩ cs ⟨w, 0, 0, 0⟩).2

/-- Lift a stateless continue predicate to the stateful interface (the
plain `loop`/`once` entry points use pure predicates). -/
def pureCont {T : Type} (contFn : T → Bool) : Unit → T → Bool × Unit :=
  fun _ t => (contFn t, ())

/-- Free function `try_cas` from `cas_loop.h`: fresh result record, `once`. -/
def try_cas {T : Type} [DecidableEq T] [Inhabited T] (adv : Nat → T → T)
    (contFn : T → Bool) (upd : T → T) (w : T) :
    cas_loop_return_value T × Unit × Machine T :=
  once adv (pureCont contFn) upd () w

/-- Free function `try_cas_loop` from `cas_loop.h`: fresh result record, `loop`. -/
def try_cas_loop {T : Type} [DecidableEq T] [Inhabited T] (adv : Nat → T → T)
    (contFn : T → Bool) (upd : T → T) (fuel : Nat) (w : T) :
    Option (cas_loop_return_value T × Unit × Machine T) :=
  loop adv (pureCont contFn) upd fuel () w

/-- The stateful continue predicate built by the bounded-retry
`try_cas_loop(a, max_tries, continue_fn, update_fn)`: the captured `long`
counter is post-decremented on every call, and the user predicate is only
consulted while the counter was still positive. -/
def boundedCont {T : Type} (contFn : T → Bool) : Int → T → Bool × Int :=
  fun mt curr => (decide (0 < mt) && contFn curr, mt - 1)

/-- Bounded-retry `try_cas_loop` from `cas_loop.h`: the plain loop run with
`boundedCont` threading the attempt budget. -/
def try_cas_loop_bounded {T : Type} [DecidableEq T] [Inhabited T] (adv : Nat → T → T)
    (max_tries : Int) (contFn : T → Bool) (upd : T → T) (fuel : Nat) (w : T) :
    Option (cas_loop_return_value T × Int × Machine T) :=
  loop adv (boundedCont contFn) upd fuel max_tries w

/-- `cas_loop` from `cas_loop.h`: retry with an always-true continuation. -/
def cas_loop {T : Type} [DecidableEq T] [Inhabited T] (adv : Nat → T → T)
    (upd : T → T) (fuel : Nat) (w : T) :
    Option (cas_loop_return_value T × Unit × Machine T) :=
  try_cas_loop adv (fun _ => true) upd fuel w

/-- `increment_to_at_least` from `cas_loop.h`: loop while the observed
value is below `to`, proposing `to` each time. -/
def increment_to_at_least {T : Type} [LinearOrder T] [DecidableEq T] [Inhabited T]
    (adv : Nat → T → T) (fuel : Nat) (w tgt : T) :
    Option (cas_loop_return_value T × Unit × Machine T) :=
  try_cas_loop adv (fun old => decide (old < tgt)) (fun _ => tgt) fuel w

/-- `cas_loop_return_value::change` from `cas_loop.h`: set `prior_value`
to `from`, `new_value` to `to`, then one `compare_exchange_strong`, which
on failure overwrites `prior_value` with the actually observed word. -/
def change {T : Type} [DecidableEq T] (adv : Nat → T → T) (w fromv tov : T) :
    cas_loop_return_value T × Machine T :=
  let m1 := Machine.tick adv ⟨w, 0, 0, 0⟩
  let m2 := { m1 with casAttempts := m1.casAttempts + 1 }
  if m1.word = fromv then
    ({ succeeded := true, prior_value := fromv, new_value := tov }, { m2 with word := tov })
  else
    ({ succeeded := false, prior_value := m1.word, new_value := tov }, m2)

/-- Free function `try_change_value` from `cas_loop.h`: fresh record, `change`. -/
def try_change_value {T : Type} [DecidableEq T] (adv : Nat → T → T) (w fromv tov : T) :
    cas_loop_return_value T × Machine T :=
  change adv w fromv tov

/-- Modelled from the spec: `versioned_ptr.h` is not under `src/`, only its
clients are. Per the spec, a versioned pointer is a `(pointer, version)`
pair packed in one atomically updatable word, and every successful update
strictly increments `version`. Pointers are heap addresses (`Option Nat`,
`none` for null). -/
structure versioned where
  ptr : Option Nat
  version : Nat
deriving DecidableEq, Repr

/-- Modelled from the spec: `versioned::inc_and_set(p)` (used by
`lf_stack::push`/`pop`) replaces the pointer and increments the version. -/
def versioned.inc_and_set (h : versioned) (p : Option Nat) : versioned :=
  ⟨p, h.version + 1⟩

/-- A stack node, mirroring `lf_stack::entry`: the stored value and the
address of the next entry. -/
structure entry (α : Type) where
  value : α
  next : Option Nat
deriving DecidableEq, Repr

/-- The lock-free stack state, mirroring `lf_stack`: an addressed heap of
entries, the versioned head word `_head`, and a fresh-address counter
standing for the allocator. -/
structure lf_stack (α : Type) where
  _head : versioned
  heap : List (Nat × entry α)
  nextAlloc : Nat
deriving DecidableEq, Repr

/-- Overwrite the `next` field of the entry at address `a`. -/
def setNext {α : Type} (a : Nat) (nx : Option Nat) :
    List (Nat × entry α) → List (Nat × entry α)
  | [] => []
  | (b, e) :: rest =>
    if b = a then (b, { e with next := nx }) :: rest else (b, e) :: setNext a nx rest

/-- Drop the entry at address `a` (deallocation during `clear`). -/
def removeAddr {α : Type} (a : Nat) : List (Nat × entry α) → List (Nat × entry α)
  | [] => []
  | (b, e) :: rest => if b = a then rest else (b, e) :: removeAddr a rest

/-- Read the entry stored at address `a`. -/
def lf_stack.lookup {α : Type} (s : lf_stack α) (a : Nat) : Option (entry α) :=
  List.lookup a s.heap

/-- Read the value stored at address `a` (dereferencing the `pointer<T>`
that `pop` hands back). -/
def lf_stack.valueAt {α : Type} (s : lf_stack α) (a : Nat) : Option α :=
  (s.lookup a).map entry.value

/-- `lf_stack::allocate`: construct a fresh detached node (`next` null)
and return its address. -/
def lf_stack.allocate {α : Type} (s : lf_stack α) (v : α) : Nat × lf_stack α :=
  (s.nextAlloc,
   { s with heap := (s.nextAlloc, ⟨v, none⟩) :: s.heap, nextAlloc := s.nextAlloc + 1 })

/-- `lf_stack::push`: thread the old head onto the node's `next` and swing
`_head` to the node with `inc_and_set` (version bumped). In this
sequential model the internal retry succeeds first time, matching the
source's always-true continuation. -/
def lf_stack.push {α : Type} (s : lf_stack α) (a : Nat) : lf_stack α :=
  { s with heap := setNext a s._head.ptr s.heap,
           _head := s._head.inc_and_set (some a) }

/-- `lf_stack::pop`: if the head is null report empty (result pointer
null, stack untouched, no retry); else advance `_head` to the popped
entry's `next` with `inc_and_set` and return the popped node's address.
The popped entry stays in the heap: its ownership passes to the caller. -/
def lf_stack.pop {α : Type} (s : lf_stack α) : Option Nat × lf_stack α :=
  match s._head.ptr with
  | none => (none, s)
  | some a =>
    match s.lookup a with
    | none => (none, s)
    | some e => (some a, { s with _head := s._head.inc_and_set e.next })

/-- `allocate` then `push`: how clients put a value on the stack. -/
def lf_stack.pushValue {α : Type} (s : lf_stack α) (v : α) : lf_stack α :=
  let p := s.allocate v
  p.2.push p.1

/-- One iteration of `lf_stack::clear`: `inc_and_change` the head to the
top entry's `next`, destroy the value and deallocate the entry. `none`
when the stack is already empty (or the head dangles). -/
def lf_stack.clear_step {α : Type} (s : lf_stack α) : Option (lf_stack α) :=
  match s._head.ptr with
  | none => none
  | some a =>
    match s.lookup a with
    | none => none
    | some e =>
      some { s with heap := removeAddr a s.heap, _head := s._head.inc_and_set e.next }

/-- Modelled from the spec: the CAS on the versioned head word
(`inc_and_change` of `versioned_ptr.h`, used by `clear` and by any stale
competitor): it compares the whole packed word, pointer and version both,
and on success installs the new pointer with the version incremented. -/
def lf_stack.inc_and_change {α : Type} [DecidableEq α] (s : lf_stack α)
    (expected : versioned) (p : Option Nat) : Bool × lf_stack α :=
  if s._head = expected then
    (true, { s with _head := ⟨p, s._head.version + 1⟩ })
  else
    (false, s)

/-- The successful head updates of the stack: a `push`, a successful
`pop`, or one `clear` iteration. Each goes through the versioned-pointer
update path of the source. -/
inductive head_step {α : Type} : lf_stack α → lf_stack α → Prop
  | push (s : lf_stack α) (a : Nat) : head_step s (s.push a)
  | pop (s s' : lf_stack α) (a : Nat) (h : s.pop = (some a, s')) : head_step s s'
  | clear (s s' : lf_stack α) (h : s.clear_step = some s') : head_step s s'

/-- The empty stack over `Nat` values, used by the concrete scenarios. -/
def demo0 : lf_stack Nat := ⟨⟨none, 0⟩, [], 0⟩

/-- Stack after pushing 1, 2, 3 from one thread, starting empty. -/
def demo3 : lf_stack Nat := ((demo0.pushValue 1).pushValue 2).pushValue 3

/-- ABA scenario, step 1: node A (value 7, address 0) pushed on the empty
stack. -/
def abaPushedA : lf_stack Nat := demo0.pushValue 7

/-- ABA scenario, step 2: A popped again (its entry stays in the heap,
owned by the popper, awaiting reuse). -/
def abaPopped : lf_stack Nat := abaPushedA.pop.2

/-- ABA scenario, step 3: the node's memory is reused as A' and pushed
back: the raw head pointer returns to the address it had in
`abaPushedA`. -/
def abaRepushed : lf_stack Nat := abaPopped.push 0

end ruts

namespace mpgc

/-- `Signum` from `gc_handshake.h`: the GC phase carried by handshake
signals. -/
inductive Signum
  | sigSync1
  | sigSync2
  | sigAsync
  | sigDeferredAsync
  | sigSweep
  | sigDeferredSweep
  | sigInit
deriving DecidableEq, Repr

/-- `Weak_signal` from `gc_handshake.h`. -/
inductive Weak_signal
  | InBarrier
  | DoHandshake
  | Working
deriving DecidableEq, Repr

/-- `in_memory_thread_struct::Alive` from `gc_handshake.h`. -/
inductive Alive
  | Dead
  | Live
deriving DecidableEq, Repr

/-- The fields of `in_memory_thread_struct` the protocol reads and
writes. `status_idx` holds the phase component of the record's `gc_status`
(the source reads it as `status_idx.load().status()`; `gc_status` itself
is defined in `gc_thread.h`, outside `src/`, so only the phase is kept).
Process-dependent constants (`pthread`, stack bounds, bitmap and persist
pointers, the free list, the random state) do not affect the claims and
are omitted. -/
structure in_memory_thread_struct where
  status_idx : Signum
  weak_signal : Weak_signal
  live : Alive
  mark_signal_disabled : Bool
  mark_signal_requested : Signum
  sweep_signal_disabled : Bool
  sweep_signal_requested : Bool
  clear_local_allocator : Bool
deriving DecidableEq, Repr

/-- The constructor of `in_memory_thread_struct`: records are created
`Live`, status `sigInit`, weak state `Working`, with every signal flag
cleared. -/
def init_thread_struct : in_memory_thread_struct :=
  { status_idx := Signum.sigInit
    weak_signal := Weak_signal.Working
    live := Alive.Live
    mark_signal_disabled := false
    mark_signal_requested := Signum.sigInit
    sweep_signal_disabled := false
    sweep_signal_requested := false
    clear_local_allocator := false }

/-- `in_memory_thread_struct::mark_dead`: disable both side-effecting
signals first, then publish `Dead`. -/
def mark_dead (r : in_memory_thread_struct) : in_memory_thread_struct :=
  { r with mark_signal_disabled := true
           sweep_signal_disabled := true
           live := Alive.Dead }

/-- `in_memory_thread_struct::marked_dead`. -/
def marked_dead (r : in_memory_thread_struct) : Bool :=
  r.live == Alive.Dead

/-- The weak-check compare-and-swap performed by `post_handshake` on a
live record: `weak_signal.compare_exchange_strong(InBarrier,
DoHandshake)`. -/
def weak_cas (r : in_memory_thread_struct) : in_memory_thread_struct :=
  if r.weak_signal == Weak_signal.InBarrier then
    { r with weak_signal := Weak_signal.DoHandshake }
  else r

/-- A signal handler publishing a new status for its own record (the
handlers live outside `src/`; all the invariant needs is that they touch
only `status_idx`). -/
def set_status (r : in_memory_thread_struct) (s : Signum) : in_memory_thread_struct :=
  { r with status_idx := s }

/-- A mutator updating its own weak-barrier-state (entering or leaving a
GC-safe region; code outside `src/`, touching only `weak_signal`). -/
def set_weak (r : in_memory_thread_struct) (w : Weak_signal) : in_memory_thread_struct :=
  { r with weak_signal := w }

/-- A deferred-signal request being recorded (code outside `src/`,
touching only the `requested` flags and `clear_local_allocator`). -/
def set_requests (r : in_memory_thread_struct) (mreq : Signum) (sreq cla : Bool) :
    in_memory_thread_struct :=
  { r with mark_signal_requested := mreq
           sweep_signal_requested := sreq
           clear_local_allocator := cla }

/-- The record states reachable from construction through the operations
the system performs on a record: dying, status updates, weak-barrier
transitions (including `post_handshake`'s CAS) and deferred-request
bookkeeping. No operation re-enables a disabled signal or revives a dead
record. -/
inductive Reach : in_memory_thread_struct → Prop
  | init : Reach init_thread_struct
  | dead (r : in_memory_thread_struct) : Reach r → Reach (mark_dead r)
  | status (r : in_memory_thread_struct) (s : Signum) : Reach r → Reach (set_status r s)
  | weak (r : in_memory_thread_struct) (w : Weak_signal) : Reach r → Reach (set_weak r w)
  | weakCas (r : in_memory_thread_struct) : Reach r → Reach (weak_cas r)
  | requests (r : in_memory_thread_struct) (mreq : Signum) (sreq cla : Bool) :
      Reach r → Reach (set_requests r mreq sreq cla)

/-- Modelled from the spec: the thread registry
(`ruts::sequential_lazy_delete_collection`, whose header is not under
`src/`) is walked by `head()`/`next()` over every record, dead ones
included, without removal; it is modelled as the list of its records. -/
def registry := List in_memory_thread_struct

/-- `post_handshake` from `gc_handshake.h` (after its fence): walk the
registry; skip dead records; on a live record, when `doWeakCheck` is set
first try the weak CAS `InBarrier -> DoHandshake`, then unconditionally
queue the phase signal to the record's thread. Returns the updated
registry together with the list of signals sent (one per live record). -/
def post_handshake (sig : Signum) (doWeakCheck : Bool) :
    List in_memory_thread_struct → List in_memory_thread_struct × List Signum
  | [] => ([], [])
  | r :: rest =>
    let rec_and_sent :=
      if marked_dead r then (r, ([] : List Signum))
      else (if doWeakCheck then weak_cas r else r, [sig])
    let tail := post_handshake sig doWeakCheck rest
    (rec_and_sent.1 :: tail.1, rec_and_sent.2 ++ tail.2)

/-- The condition of `wait_handshake`'s inner busy loop, exactly as the
source writes it: keep spinning on a record while it is not dead and
(its status differs from `sig`, or the weak check is on and its
weak-barrier-state is `DoHandshake`). -/
def spinGuard (sig : Signum) (doWeakCheck : Bool) (r : in_memory_thread_struct) : Bool :=
  !(marked_dead r) && (!(r.status_idx == sig) ||
    (doWeakCheck && r.weak_signal == Weak_signal.DoHandshake))

/-- How one record's spin ends: the record became satisfied, or the
global termination flag was observed. -/
inductive SpinExit
  | satisfied
  | aborted
deriving DecidableEq, Repr

/-- The inner busy loop of `wait_handshake` on one record. Time is
explicit: `ρ t` is the record's state at instant `t` (other threads keep
mutating it) and `τ t` the termination flag `request_gc_termination` at
instant `t`. Each iteration observes the record; if the guard is off the
loop exits satisfied, else it relaxes the CPU, polls the termination flag
(returning at once when set), and retries. Fuel makes the spin total;
`none` means it was still spinning when the fuel ran out. -/
def spinLoop (sig : Signum) (doWeakCheck : Bool) (ρ : Nat → in_memory_thread_struct)
    (τ : Nat → Bool) : Nat → Nat → Option (SpinExit × Nat)
  | _, 0 => none
  | t, Nat.succ fuel =>
    if spinGuard sig doWeakCheck (ρ t) then
      if τ t then some (SpinExit.aborted, t + 1)
      else spinLoop sig doWeakCheck ρ τ (t + 1) fuel
    else some (SpinExit.satisfied, t + 1)

/-- `wait_handshake` from `gc_handshake.h`: walk the registry, spinning on
each record in turn; an abort by the termination flag returns from the
whole call immediately, leaving the remaining records unvisited. The
result carries whether the call was aborted and the instant it returned;
`none` when the per-record fuel ran out mid-spin. -/
def wait_handshake (sig : Signum) (doWeakCheck : Bool) (τ : Nat → Bool) (fuel : Nat) :
    List (Nat → in_memory_thread_struct) → Nat → Option (Bool × Nat)
  | [], t => some (false, t)
  | ρ :: rest, t =>
    match spinLoop sig doWeakCheck ρ τ t fuel with
    | none => none
    | some (SpinExit.aborted, u) => some (true, u)
    | some (SpinExit.satisfied, u) => wait_handshake sig doWeakCheck τ fuel rest u

/-- `handshake` from `gc_handshake.h`: `post_handshake` then
`wait_handshake`. The records handed to the wait are the post-state
records, frozen in time (the composition is stated for environments where
no third party mutates them, which is exact for the empty-registry
claims). -/
def handshake (sig : Signum) (doWeakCheck : Bool) (regs : List in_memory_thread_struct)
    (τ : Nat → Bool) (fuel t : Nat) : List Signum × Option (Bool × Nat) :=
  let posted := post_handshake sig doWeakCheck regs
  (posted.2, wait_handshake sig doWeakCheck τ fuel (posted.1.map (fun r => fun _ => r)) t)

/-- The spec's wording of when `wait_handshake` stops spinning on a
record, written down verbatim for comparison with the source's
`spinGuard`: dead, or status reached the phase, or (when the weak check
is on) weak-barrier-state `DoHandshake`. -/
def specSatisfied (sig : Signum) (doWeakCheck : Bool) (r : in_memory_thread_struct) : Bool :=
  marked_dead r || r.status_idx == sig ||
    (doWeakCheck && r.weak_signal == Weak_signal.DoHandshake)

/-- A live record parked in a GC-safe region (`InBarrier`), status still
`sigInit`: the shape `post_handshake(phase, true)` weak-CASes. -/
def inBarrierRec : in_memory_thread_struct :=
  { init_thread_struct with weak_signal := Weak_signal.InBarrier }

end mpgc

namespace ruts

/-- C5: if the continue predicate rejects the first observed value, both
`loop` (via `try_cas_loop`) and `once` (via `try_cas`) return with
`succeeded = false`, the update function is never invoked (`updates = 0`),
no compare-and-swap is attempted (`casAttempts = 0`), and the word still
holds the observed value. -/
theorem C5_veto_without_attempt {T : Type} [DecidableEq T] [Inhabited T]
    (adv : Nat → T → T) (contFn : T → Bool) (upd : T → T) (fuel : Nat) (w : T)
    (h : contFn (adv 0 w) = false) :
    try_cas_loop adv contFn upd fuel w =
      some (⟨false, adv 0 w, default⟩, (), ⟨adv 0 w, 1, 0, 0⟩) ∧
    try_cas adv contFn upd w = (⟨false, adv 0 w, default⟩, (), ⟨adv 0 w, 1, 0, 0⟩) := by
  constructor <;>
    simp [try_cas_loop, try_cas, loop, once, first_try, try_once, Machine.tick, pureCont, h]

/-- Witness for C5 at a concrete veto: predicate constantly false on word 5. -/
theorem C5_veto_without_attempt_witness :
    (fun _ : Nat => false) (quiet 0 5) = false ∧
    try_cas_loop quiet (fun _ : Nat => false) (fun x => x + 1) 3 5 =
      some (⟨false, 5, 0⟩, (), ⟨5, 1, 0, 0⟩) :=
  ⟨rfl, (C5_veto_without_attempt quiet (fun _ => false) (fun x => x + 1) 3 5 rfl).1⟩

/-- C9: when `change(a, from, to)` fails, the outcome's `prior_value` (and
hence `resulting_value()`) is the word's actually observed value, not the
`from` argument, and the word is unchanged; on success the word becomes
exactly `to`. -/
theorem C9_change_reports_actual_value {T : Type} [DecidableEq T]
    (adv : Nat → T → T) (w fromv tov : T) :
    (adv 0 w ≠ fromv →
      change adv w fromv tov = (⟨false, adv 0 w, tov⟩, ⟨adv 0 w, 1, 0, 1⟩) ∧
      (change adv w fromv tov).1.resulting_value = adv 0 w) ∧
    (adv 0 w = fromv →
      change adv w fromv tov = (⟨true, fromv, tov⟩, ⟨tov, 1, 0, 1⟩)) := by
  constructor <;> intro h <;>
    simp [change, Machine.tick, cas_loop_return_value.resulting_value, h]

/-- Witness for C9: a failing and a succeeding concrete `change`. -/
theorem C9_change_reports_actual_value_witness :
    ((5 : Nat) ≠ 7 →
      change quiet 5 7 9 = (⟨false, 5, 9⟩, ⟨5, 1, 0, 1⟩) ∧
      (change quiet 5 7 9).1.resulting_value = 5) ∧
    change quiet (5 : Nat) 7 9 = (⟨false, 5, 9⟩, ⟨5, 1, 0, 1⟩) :=
  ⟨(C9_change_reports_actual_value quiet 5 7 9).1,
   ((C9_change_reports_actual_value quiet 5 7 9).1 (by decide)).1⟩

/-- C4: starting empty and used single-threaded, after push(1), push(2),
push(3) three pops yield 3, 2, 1 and a fourth pop reports empty; in
general `pop` on a stack whose head is null reports empty (null result
pointer) and leaves the stack unchanged, without retrying. -/
theorem C4_lifo_order_and_empty_pop :
    (demo3.pop.1.bind demo3.pop.2.valueAt = some 3 ∧
     demo3.pop.2.pop.1.bind demo3.pop.2.pop.2.valueAt = some 2 ∧
     demo3.pop.2.pop.2.pop.1.bind demo3.pop.2.pop.2.pop.2.valueAt = some 1 ∧
     demo3.pop.2.pop.2.pop.2.pop.1 = none ∧
     demo3.pop.2.pop.2.pop.2.pop.2 = demo3.pop.2.pop.2.pop.2) ∧
    ∀ (α : Type) (s : lf_stack α), s._head.ptr = none → s.pop = (none, s) := by
  constructor
  · decide
  · intro α s h
    simp [lf_stack.pop, h]

/-- Witness for C4's general clause: popping the concrete empty stack. -/
theorem C4_lifo_order_and_empty_pop_witness :
    demo0._head.ptr = none ∧ demo0.pop = (none, demo0) :=
  ⟨rfl, C4_lifo_order_and_empty_pop.2 Nat demo0 rfl⟩

end ruts

namespace mpgc

/-- C8: in every reachable record state, reading `Dead` on the liveness
flag implies both `mark_signal_disabled` and `sweep_signal_disabled` are
already true: records are created `Live` with both flags clear,
`mark_dead` sets both flags before publishing `Dead`, and no operation
re-enables a signal or revives a dead record. -/
theorem C8_dead_implies_signals_disabled (r : in_memory_thread_struct)
    (hr : Reach r) (hd : r.live = Alive.Dead) :
    r.mark_signal_disabled = true ∧ r.sweep_signal_disabled = true := by
  induction hr with
  | init => simp [init_thread_struct] at hd
  | dead r _ _ => exact ⟨rfl, rfl⟩
  | status r s _ ih => exact ih hd
  | weak r w _ ih => exact ih hd
  | weakCas r _ ih =>
    have : (weak_cas r).live = r.live := by
      unfold weak_cas; split <;> rfl
    have hmark : (weak_cas r).mark_signal_disabled = r.mark_signal_disabled := by
      unfold weak_cas; split <;> rfl
    have hsweep : (weak_cas r).sweep_signal_disabled = r.sweep_signal_disabled := by
      unfold weak_cas; split <;> rfl
    rw [this] at hd
    rw [hmark, hsweep]
    exact ih hd
  | requests r mreq sreq cla _ ih => exact ih hd

/-- Witness for C8: the record obtained by killing a freshly constructed
one reads `Dead` and indeed has both signals disabled. -/
theorem C8_dead_implies_signals_disabled_witness :
    (mark_dead init_thread_struct).live = Alive.Dead ∧
    (mark_dead init_thread_struct).mark_signal_disabled = true ∧
    (mark_dead init_thread_struct).sweep_signal_disabled = true :=
  ⟨rfl, C8_dead_implies_signals_disabled _ (Reach.dead _ Reach.init) rfl⟩

/-- C10: on an empty registry, `post_handshake` sends no signal and
changes no record, `wait_handshake` returns immediately (not aborted,
clock unmoved, no spinning), and so does their composition `handshake`,
for every phase and weak-check flag. -/
theorem C10_empty_registry_no_op (sig : Signum) (wc : Bool) (τ : Nat → Bool)
    (fuel t : Nat) :
    post_handshake sig wc [] = ([], []) ∧
    wait_handshake sig wc τ fuel [] t = some (false, t) ∧
    handshake sig wc [] τ fuel t = ([], some (false, t)) :=
  ⟨rfl, rfl, rfl⟩

/-- C1 as stated is false on the source: a live record whose
weak-barrier-state was CASed to `DoHandshake` by `post_handshake(sigSync1,
true)` is one the spec's wording calls satisfied, yet the source's spin
condition `status != sig || (doWeakCheck && weak == DoHandshake)` keeps
`wait_handshake` spinning on it (here: 30 iterations and still spinning,
and the guard is state-independent of further fuel). -/
theorem C1_counterexample_weak_skip :
    post_handshake Signum.sigSync1 true [inBarrierRec] =
      ([weak_cas inBarrierRec], [Signum.sigSync1]) ∧
    specSatisfied Signum.sigSync1 true (weak_cas inBarrierRec) = true ∧
    spinGuard Signum.sigSync1 true (weak_cas inBarrierRec) = true ∧
    spinLoop Signum.sigSync1 true (fun _ => weak_cas inBarrierRec) (fun _ => false) 0 30 =
      none := by
  decide

/-- C1 amended: `wait_handshake` treats a record as satisfied exactly when
it is marked dead, or its status has reached the phase and not (weak_check
set with weak-barrier-state `DoHandshake`); with the weak check on, a
`DoHandshake` weak-barrier-state forces further spinning (until the thread
performs the handshake itself) instead of excusing the record. When the
guard is off, the spin exits as satisfied on its next observation. -/
theorem C1_amended_satisfaction_condition :
    (∀ (sig : Signum) (wc : Bool) (r : in_memory_thread_struct),
      spinGuard sig wc r = false ↔
        (marked_dead r = true ∨
          (r.status_idx = sig ∧ ¬(wc = true ∧ r.weak_signal = Weak_signal.DoHandshake)))) ∧
    (∀ (sig : Signum) (wc : Bool) (ρ : Nat → in_memory_thread_struct) (τ : Nat → Bool)
      (t fuel : Nat), spinGuard sig wc (ρ t) = false →
        spinLoop sig wc ρ τ t (fuel + 1) = some (SpinExit.satisfied, t + 1)) := by
  constructor
  · intro sig wc r
    by_cases hdead : r.live = Alive.Dead <;>
      by_cases hst : r.status_idx = sig <;>
        by_cases hwk : r.weak_signal = Weak_signal.DoHandshake <;>
          cases wc <;>
            simp [spinGuard, marked_dead, hdead, hst, hwk]
  · intro sig wc ρ τ t fuel h
    rw [spinLoop, h]
    simp

/-- Witness for C1's amended satisfaction: a dead record is satisfied and
its spin exits at once. -/
theorem C1_amended_satisfaction_condition_witness :
    (spinGuard Signum.sigSync1 true (mark_dead init_thread_struct) = false ↔
      (marked_dead (mark_dead init_thread_struct) = true ∨
        ((mark_dead init_thread_struct).status_idx = Signum.sigSync1 ∧
          ¬(true = true ∧
            (mark_dead init_thread_struct).weak_signal = Weak_signal.DoHandshake)))) ∧
    spinLoop Signum.sigSync1 true (fun _ => mark_dead init_thread_struct)
      (fun _ => false) 0 1 = some (SpinExit.satisfied, 1) :=
  ⟨C1_amended_satisfaction_condition.1 Signum.sigSync1 true (mark_dead init_thread_struct),
   C1_amended_satisfaction_condition.2 Signum.sigSync1 true _ _ 0 0 (by decide)⟩

/-- C2: when the global termination flag is set, `wait_handshake` needs at
most one observation per record: the call returns, within `|registry|`
instants, regardless of how many live records have not reached the phase;
and the moment the flag is polled on a not-yet-satisfied record the call
returns right there (aborted, next instant), never touching the remaining
records. -/
theorem C2_termination_flag_aborts (sig : Signum) (wc : Bool) (τ : Nat → Bool)
    (regs : List (Nat → in_memory_thread_struct)) (t : Nat)
    (hτ : ∀ u, τ u = true) :
    (∃ b u, wait_handshake sig wc τ 1 regs t = some (b, u) ∧ u ≤ t + regs.length) ∧
    (∀ (ρ : Nat → in_memory_thread_struct) (rest : List (Nat → in_memory_thread_struct)),
      spinGuard sig wc (ρ t) = true →
      wait_handshake sig wc τ 1 (ρ :: rest) t = some (true, t + 1)) := by
  constructor
  · induction regs generalizing t with
    | nil => exact ⟨false, t, rfl, by simp⟩
    | cons ρ rest ih =>
      by_cases hg : spinGuard sig wc (ρ t) = true
      · have hspin : spinLoop sig wc ρ τ t 1 = some (SpinExit.aborted, t + 1) := by
          rw [spinLoop, hg, hτ t]
          rfl
        refine ⟨true, t + 1, ?_, by simp only [List.length_cons]; omega⟩
        rw [wait_handshake, hspin]
      · have hspin : spinLoop sig wc ρ τ t 1 = some (SpinExit.satisfied, t + 1) := by
          rw [Bool.not_eq_true] at hg
          rw [spinLoop, hg]
          rfl
        obtain ⟨b, u, hw, hu⟩ := ih (t + 1)
        refine ⟨b, u, ?_, by simp only [List.length_cons]; omega⟩
        rw [wait_handshake, hspin]
        exact hw
  · intro ρ rest hg
    have hspin : spinLoop sig wc ρ τ t 1 = some (SpinExit.aborted, t + 1) := by
      rw [spinLoop, hg, hτ t]
      rfl
    rw [wait_handshake, hspin]

/-- Witness for C2: one live, unsatisfied record; flag constantly set;
the wait returns aborted at the very next instant. -/
theorem C2_termination_flag_aborts_witness :
    (∀ u : Nat, (fun _ => true) u = true) ∧
    (∃ b u, wait_handshake Signum.sigSync1 false (fun _ => true) 1
        [fun _ => init_thread_struct] 0 = some (b, u) ∧ u ≤ 0 + 1) :=
  ⟨fun _ => rfl,
   (C2_termination_flag_aborts Signum.sigSync1 false (fun _ => true)
     [fun _ => init_thread_struct] 0 (fun _ => rfl)).1⟩

end mpgc




namespace ruts

/-- Every successful head update (push, successful pop, one clear
iteration) bumps the head's version by exactly one. -/
theorem head_step_version_succ {α : Type} {s s' : lf_stack α} (h : head_step s s') :
    s'._head.version = s._head.version + 1 := by
  cases h with
  | push a => rfl
  | pop s2 a hp =>
    unfold lf_stack.pop at hp
    split at hp
    · simp at hp
    · split at hp
      · simp at hp
      · simp only [Prod.mk.injEq] at hp
        rw [← hp.2]
        rfl
  | clear s2 hc =>
    unfold lf_stack.clear_step at hc
    split at hc
    · exact absurd hc (by simp)
    · split at hc
      · exact absurd hc (by simp)
      · simp only [Option.some.injEq] at hc
        rw [← hc]
        rfl

/-- Across any nonempty chain of successful head updates the version
strictly increases. -/
theorem head_steps_version_lt {α : Type} {s s' : lf_stack α}
    (h : Relation.TransGen head_step s s') :
    s._head.version < s'._head.version := by
  induction h with
  | single h1 => rw [head_step_version_succ h1]; omega
  | tail _ h1 ih => rw [head_step_version_succ h1]; omega

end ruts

namespace ruts

/-- C3: every successful head update strictly increments the version, so
a compare-and-swap against a previously observed head value fails after
any intervening successful update, even when the raw pointer has returned
to the same address. Concretely: push(A); pop()->A; push(A') with A'
reusing A's address leaves the head pointer-equal to the old observation
but version-different, so the stale CAS fails. -/
theorem C3_version_counter_aba :
    (∀ (α : Type) [DecidableEq α] (s s' : lf_stack α),
      (head_step s s' → s'._head.version = s._head.version + 1) ∧
      ∀ (p : Option Nat), Relation.TransGen head_step s s' →
        s._head.version < s'._head.version ∧
        (s'.inc_and_change s._head p).1 = false ∧
        s'.inc_and_change s._head p = (false, s')) ∧
    (abaRepushed._head.ptr = abaPushedA._head.ptr ∧
     abaRepushed._head ≠ abaPushedA._head ∧
     (abaRepushed.inc_and_change abaPushedA._head none).1 = false) := by
  constructor
  · intro α _ s s'
    refine ⟨head_step_version_succ, ?_⟩
    intro p h
    have hv := head_steps_version_lt h
    have hne : ¬(s'._head = s._head) := by
      intro he
      rw [he] at hv
      exact lt_irrefl _ hv
    refine ⟨hv, ?_, ?_⟩ <;> simp [lf_stack.inc_and_change, hne]
  · refine ⟨rfl, by decide, by decide⟩

/-- Witness for C3: the two-update chain pop-then-push of the ABA scenario,
with the stale CAS against the old head value failing. -/
theorem C3_version_counter_aba_witness :
    abaPushedA._head.version < abaRepushed._head.version ∧
    (abaRepushed.inc_and_change abaPushedA._head none).1 = false ∧
    abaRepushed.inc_and_change abaPushedA._head none = (false, abaRepushed) :=
  ((C3_version_counter_aba.1 Nat abaPushedA abaRepushed).2 none
    (Relation.TransGen.tail
      (Relation.TransGen.single (head_step.pop abaPushedA abaPopped 0 (by decide)))
      (head_step.push abaPopped 0)))

end ruts

namespace ruts

/-- With the bounded continue predicate and an exhausted budget, `try_once`
vetoes: no update, no CAS, word untouched, counter still decremented. -/
theorem try_once_bounded_exhausted {T : Type} [DecidableEq T] (adv : Nat → T → T)
    (contFn : T → Bool) (upd : T → T) (r : cas_loop_return_value T) (mt : Int)
    (m : Machine T) (h : mt ≤ 0) :
    try_once adv (boundedCont contFn) upd r mt m =
      (true, { r with succeeded := false }, mt - 1, m) := by
  have hd : decide (0 < mt) = false := by
    simp only [decide_eq_false_iff_not, not_lt]
    exact h
  simp [try_once, boundedCont, hd]

/-- Each bounded `try_once` decrements the budget by one and performs at
most one CAS attempt, none when the budget was already gone. -/
theorem try_once_bounded_shape {T : Type} [DecidableEq T] (adv : Nat → T → T)
    (contFn : T → Bool) (upd : T → T) (r : cas_loop_return_value T) (mt : Int)
    (m : Machine T) :
    (try_once adv (boundedCont contFn) upd r mt m).2.2.1 = mt - 1 ∧
    (try_once adv (boundedCont contFn) upd r mt m).2.2.2.casAttempts ≤
      m.casAttempts + (if 0 < mt then 1 else 0) := by
  by_cases h0 : 0 < mt
  · by_cases hc : contFn r.prior_value = true
    · by_cases hw : adv m.step m.word = r.prior_value <;>
        simp [try_once, boundedCont, h0, hc, hw, Machine.tick]
    · rw [Bool.not_eq_true] at hc
      simp [try_once, boundedCont, h0, hc]
  · have hd : decide (0 < mt) = false := by simp [h0]
    simp [try_once, boundedCont, hd]

/-- The bounded retry loop always terminates within `budget + 1`
iterations and performs at most `budget` CAS attempts beyond those already
counted. -/
theorem try_more_bounded_total {T : Type} [DecidableEq T] (adv : Nat → T → T)
    (contFn : T → Bool) (upd : T → T) :
    ∀ (fuel : Nat) (mt : Int) (r : cas_loop_return_value T) (m : Machine T),
      mt.toNat < fuel →
      ∃ out, try_more adv (boundedCont contFn) upd fuel (r, mt, m) = some out ∧
        out.2.2.casAttempts ≤ m.casAttempts + mt.toNat := by
  intro fuel
  induction fuel with
  | zero => intro mt r m h; exact absurd h (by omega)
  | succ n ih =>
    intro mt r m h
    by_cases hm : mt ≤ 0
    · have he := try_once_bounded_exhausted adv contFn upd r mt m hm
      refine ⟨({ r with succeeded := false }, mt - 1, m), ?_, ?_⟩
      · simp [try_more, he]
      · simp
    · push_neg at hm
      obtain ⟨hdec, hcas⟩ := try_once_bounded_shape adv contFn upd r mt m
      set s := try_once adv (boundedCont contFn) upd r mt m with hs
      by_cases hdone : s.1 = true
      · refine ⟨s.2, ?_, ?_⟩
        · simp [try_more, ← hs, hdone]
        · refine Nat.le_trans hcas ?_
          have h1 : (if 0 < mt then 1 else 0) = 1 := by simp [hm]
          rw [h1]
          omega
      · have hx : s.2 = (s.2.1, mt - 1, s.2.2.2) := by
          rw [← hdec]
        have hlt : (mt - 1).toNat < n := by omega
        obtain ⟨out, hout, hb⟩ := ih (mt - 1) s.2.1 s.2.2.2 hlt
        refine ⟨out, ?_, ?_⟩
        · simp [try_more, ← hs, hdone]
          rw [hx]
          exact hout
        · have h1 : (if 0 < mt then 1 else 0) = 1 := by simp [hm]
          rw [h1] at hcas
          omega

/-- `loop` is one unfolding of `try_more`: the first read seeds
`prior_value` with the observed word, and everything after is the shared
retry body. -/
theorem loop_eq_try_more {T σ : Type} [DecidableEq T] [Inhabited T] (adv : Nat → T → T)
    (cont : σ → T → Bool × σ) (upd : T → T) (fuel : Nat) (cs : σ) (w : T) :
    loop adv cont upd fuel cs w =
      try_more adv cont upd (fuel + 1)
        (⟨false, adv 0 w, default⟩, cs, ⟨adv 0 w, 1, 0, 0⟩) := by
  rfl

end ruts

namespace ruts

/-- C6: for every K, the bounded-retry `try_cas_loop(a, K, continue_fn,
update_fn)` terminates after at most K compare-and-swap attempts; with
K = 0 it attempts no compare-and-swap at all, returns `succeeded = false`,
and the word still holds the first observed value. -/
theorem C6_bounded_retry_budget {T : Type} [DecidableEq T] [Inhabited T]
    (adv : Nat → T → T) (contFn : T → Bool) (upd : T → T) (K : Nat) (w : T) :
    (∃ out, try_cas_loop_bounded adv (K : Int) contFn upd K w = some out ∧
       out.2.2.casAttempts ≤ K) ∧
    (K = 0 → try_cas_loop_bounded adv (K : Int) contFn upd K w =
       some (⟨false, adv 0 w, default⟩, -1, ⟨adv 0 w, 1, 0, 0⟩)) := by
  constructor
  · rw [try_cas_loop_bounded, loop_eq_try_more]
    have hK : (K : Int).toNat < K + 1 := by omega
    obtain ⟨out, hout, hb⟩ :=
      try_more_bounded_total adv contFn upd (K + 1) (K : Int)
        ⟨false, adv 0 w, default⟩ ⟨adv 0 w, 1, 0, 0⟩ hK
    refine ⟨out, hout, ?_⟩
    simp only [Machine.casAttempts] at hb
    omega
  · intro hK0
    subst hK0
    rw [try_cas_loop_bounded, loop_eq_try_more]
    have he := try_once_bounded_exhausted adv contFn upd
      (⟨false, adv 0 w, default⟩ : cas_loop_return_value T) ((0 : Nat) : Int)
      (⟨adv 0 w, 1, 0, 0⟩ : Machine T) (by simp)
    simp only [Nat.cast_zero] at he
    simp at he
    simp [try_more, he]

/-- Witness for C6 at K = 0: no CAS attempt, word untouched. -/
theorem C6_bounded_retry_budget_witness :
    try_cas_loop_bounded quiet (((0 : Nat) : Int)) (fun _ : Nat => true)
      (fun x => x + 1) 0 (5 : Nat) = some (⟨false, 5, 0⟩, -1, ⟨5, 1, 0, 0⟩) :=
  (C6_bounded_retry_budget quiet (fun _ => true) (fun x => x + 1) 0 5).2 rfl

/-- Whenever the `increment_to_at_least` retry body exits (by veto or by a
successful CAS), the outcome's resulting value is at least the target. -/
theorem try_more_inc_ge {T : Type} [LinearOrder T] [DecidableEq T] (adv : Nat → T → T)
    (tgt : T) :
    ∀ (fuel : Nat) (r : cas_loop_return_value T) (m : Machine T)
      (out : cas_loop_return_value T × Unit × Machine T),
      try_more adv (pureCont (fun old => decide (old < tgt))) (fun _ => tgt) fuel
        (r, (), m) = some out →
      tgt ≤ out.1.resulting_value := by
  intro fuel
  induction fuel with
  | zero => intro r m out h; simp [try_more] at h
  | succ n ih =>
    intro r m out h
    by_cases hc : r.prior_value < tgt
    · by_cases hw : adv m.step m.word = r.prior_value
      · simp [try_more, try_once, pureCont, Machine.tick, hc, hw] at h
        rw [← h]
        simp [cas_loop_return_value.resulting_value]
      · simp [try_more, try_once, pureCont, Machine.tick, hc, hw] at h
        exact ih _ _ _ h
    · simp [try_more, try_once, pureCont, Machine.tick, hc] at h
      rw [← h]
      simp [cas_loop_return_value.resulting_value]
      exact le_of_not_lt hc

end ruts

namespace ruts

/-- C7: `increment_to_at_least(a, target)` succeeds with the word set to
exactly `target` when the observed value is below `target` (quiescent
run), vetoes with the word unchanged when the observed value is already
at or above `target`, and in every terminating run — under any
interference — the outcome's `resulting_value()` is at least `target`, so
the operation never lowers the published value. -/
theorem C7_increment_to_at_least_monotone {T : Type} [LinearOrder T] [DecidableEq T]
    [Inhabited T] (fuel : Nat) (w tgt : T) :
    (w < tgt → increment_to_at_least quiet fuel w tgt =
      some (⟨true, w, tgt⟩, (), ⟨tgt, 2, 1, 1⟩)) ∧
    (tgt ≤ w → increment_to_at_least quiet fuel w tgt =
      some (⟨false, w, default⟩, (), ⟨w, 1, 0, 0⟩)) ∧
    (∀ (adv : Nat → T → T) (out : cas_loop_return_value T × Unit × Machine T),
      increment_to_at_least adv fuel w tgt = some out →
      tgt ≤ out.1.resulting_value) := by
  refine ⟨?_, ?_, ?_⟩
  · intro h
    simp [increment_to_at_least, try_cas_loop, loop, first_try, try_once, pureCont,
      Machine.tick, quiet, h]
  · intro h
    have hc : ¬(w < tgt) := not_lt.mpr h
    simp [increment_to_at_least, try_cas_loop, loop, first_try, try_once, pureCont,
      Machine.tick, quiet, hc]
  · intro adv out h
    rw [increment_to_at_least, try_cas_loop, loop_eq_try_more] at h
    exact try_more_inc_ge adv tgt (fuel + 1) _ _ out h

/-- Witness for C7: raising 3 to 5 succeeds and sets the word to 5;
starting from 7 it vetoes and leaves 7. -/
theorem C7_increment_to_at_least_monotone_witness :
    ((3 : Nat) < 5 ∧ increment_to_at_least quiet 0 (3 : Nat) 5 =
      some (⟨true, 3, 5⟩, (), ⟨5, 2, 1, 1⟩)) ∧
    ((5 : Nat) ≤ 7 ∧ increment_to_at_least quiet 0 (7 : Nat) 5 =
      some (⟨false, 7, 0⟩, (), ⟨7, 1, 0, 0⟩)) :=
  ⟨⟨by decide, (C7_increment_to_at_least_monotone 0 3 5).1 (by decide)⟩,
   ⟨by decide, (C7_increment_to_at_least_monotone 0 7 5).2.1 (by decide)⟩⟩

end ruts
